import Mathlib

/-!
Shallow embedding of the Nomothetes frontend services and of the
document-processing / entity-network core described in the design
specification, together with proofs of the stated properties.

Frontend components are translated from the TypeScript sources
(`UploadCaseModal.tsx`, the analysis service, `RegisterPage`,
`CasesPage`).  The backend core (graph projector, graph builder, entity
resolution, fuzzy matcher, pipeline orchestrator) is not part of the
checked-in sources; those components are modelled from the spec, as
marked on each definition.
-/

/-! ## Upload modal (src/frontend/src/components/cases/UploadCaseModal.tsx) -/

/-- Maximum upload size, from `const MAX_FILE_SIZE = 50 * 1024 * 1024`. -/
def MAX_FILE_SIZE : Nat := 50 * 1024 * 1024

/-- The two attributes of a selected browser `File` that `validateFile`
inspects: its name and its byte size. -/
structure UploadFile where
  name : String
  size : Nat
deriving DecidableEq, Repr

/-- Character-level rendering of `file.name.toLowerCase()` (identical to
the JS builtin on ASCII names). -/
def jsToLowerCase (s : String) : List Char :=
  s.toList.map Char.toLower

/-- Rendering of `file.name.toLowerCase().endsWith('.pdf')`. -/
def nameEndsWithPdf (name : String) : Bool :=
  ".pdf".toList.isSuffixOf (jsToLowerCase name)

/-- Translation of `validateFile`: rejects names that do not end in
`.pdf` after lower-casing, then rejects sizes above `MAX_FILE_SIZE`. -/
def validateFile (f : UploadFile) : Option String :=
  if !(nameEndsWithPdf f.name) then some "Only PDF files are allowed"
  else if f.size > MAX_FILE_SIZE then some "File size must be less than 50MB"
  else none

/-- The modal state components relevant to file selection: the retained
upload candidate and the displayed error message. -/
structure ModalState where
  file : Option UploadFile
  error : Option String
deriving DecidableEq, Repr

/-- Initial modal state: `useState<File | null>(null)` and
`useState<string | null>(null)`. -/
def initialModalState : ModalState := { file := none, error := none }

/-- Translation of `handleFileSelect`: on a validation error the error is
shown and the file is cleared; otherwise the file is retained. -/
def handleFileSelect (st : ModalState) (selected : UploadFile) : ModalState :=
  match validateFile selected with
  | some e => { st with error := some e, file := none }
  | none => { st with error := none, file := some selected }

/-- Translation of `removeFile`: clears the file and the error. -/
def removeFile (st : ModalState) : ModalState :=
  { st with file := none, error := none }

/-- Translation of `handleClose`: resets the selection state. -/
def handleClose (st : ModalState) : ModalState :=
  { st with file := none, error := none }

/-- Translation of the guard in `handleUpload`: the file sent to
`casesService.uploadCase` is the retained candidate, or nothing when no
file is retained (`if (!file) return;`). -/
def handleUploadSends (st : ModalState) : Option UploadFile :=
  st.file

/-- States of the modal reachable through its file-selection handlers. -/
inductive ModalReachable : ModalState → Prop
  | init : ModalReachable initialModalState
  | select {st : ModalState} (f : UploadFile) :
      ModalReachable st → ModalReachable (handleFileSelect st f)
  | remove {st : ModalState} :
      ModalReachable st → ModalReachable (removeFile st)
  | close {st : ModalState} :
      ModalReachable st → ModalReachable (handleClose st)

/-! ## Analysis service (src/unnamed/part_005, `analysisService`) -/

/-- Shape of the sentiment payload (`SentimentData` interface); every
field is optional. -/
structure SentimentData where
  overall_sentiment : Option String := none
  tone : Option String := none
  confidence_level : Option String := none
  key_observations : Option (List String) := none
  judicial_tone : Option String := none
  summary : Option String := none
  raw_analysis : Option String := none
  parse_error : Option Bool := none
deriving DecidableEq, Repr

/-- Translation of `analysisService.parseSentimentData`.  The external
`JSON.parse` builtin is abstracted as the `jsonParse` argument, which
returns `none` exactly when `JSON.parse` would throw.  The falsy test
`if (!resultText) return null` covers both `null` and the empty
string. -/
def parseSentimentData (jsonParse : String → Option SentimentData)
    (resultText : Option String) : Option SentimentData :=
  match resultText with
  | none => none
  | some t =>
    if t = "" then none
    else
      match jsonParse t with
      | some v => some v
      | none => some { raw_analysis := some t, parse_error := some true }

/-! ## Register page validation (src/unnamed/part_003, `RegisterPage`) -/

/-- Character class `\s` of the source regex (ASCII whitespace forms). -/
def isJsSpace (c : Char) : Bool :=
  c = ' ' || c = '\t' || c = '\n' || c = '\r' || c = '\x0b' || c = '\x0c'

/-- Character class `[^\s@]` of the source email regex. -/
def isEmailChar (c : Char) : Bool :=
  !(isJsSpace c) && c ≠ '@'

/-- Matcher for the source regex `^[^\s@]+@[^\s@]+\.[^\s@]+$`: exactly
one `@`, a nonempty run of `[^\s@]` before it, and after it a dot that
has at least one `[^\s@]` character on each side. -/
def matchEmailRe (s : String) : Bool :=
  match s.toList.splitOn '@' with
  | [pre, post] =>
      !pre.isEmpty && pre.all isEmailChar && post.all isEmailChar &&
        ((post.drop 1).dropLast.contains '.')
  | _ => false

/-- The four form fields that `RegisterPage.validate` inspects. -/
structure RegisterForm where
  fullName : String
  email : String
  password : String
  confirmPassword : String
deriving DecidableEq, Repr

/-- Rendering of the blank test `!fullName.trim()`: the trimmed string
is empty exactly when every character is whitespace. -/
def jsTrimIsEmpty (s : String) : Bool :=
  s.toList.all isJsSpace

/-- Full-name branch of `validate`. -/
def fullNameMsg (fullName : String) : Option String :=
  if jsTrimIsEmpty fullName then some "Full name is required" else none

/-- Email branch of `validate`. -/
def emailMsg (email : String) : Option String :=
  if email = "" then some "Email is required"
  else if !(matchEmailRe email) then some "Invalid email format"
  else none

/-- Test `/[a-z]/.test(password)`. -/
def hasLowerAscii (p : String) : Bool :=
  p.toList.any fun c => 'a' ≤ c && c ≤ 'z'

/-- Test `/[A-Z]/.test(password)`. -/
def hasUpperAscii (p : String) : Bool :=
  p.toList.any fun c => 'A' ≤ c && c ≤ 'Z'

/-- Test `/[0-9]/.test(password)`. -/
def hasDigitAscii (p : String) : Bool :=
  p.toList.any fun c => '0' ≤ c && c ≤ '9'

/-- Test `/[^a-zA-Z0-9]/.test(password)`. -/
def hasNonAlnumAscii (p : String) : Bool :=
  p.toList.any fun c =>
    !(('a' ≤ c && c ≤ 'z') || ('A' ≤ c && c ≤ 'Z') || ('0' ≤ c && c ≤ '9'))

/-- Password branch of `validate` (the else-if chain in order). -/
def passwordMsg (p : String) : Option String :=
  if p = "" then some "Password is required"
  else if p.length < 8 then some "Password must be at least 8 characters"
  else if !(hasLowerAscii p) || !(hasUpperAscii p) then
    some "Password must contain upper and lowercase letters"
  else if !(hasDigitAscii p) then some "Password must contain at least one number"
  else if !(hasNonAlnumAscii p) then
    some "Password must contain at least one special character"
  else none

/-- Confirm-password branch of `validate`. -/
def confirmMsg (password confirmPassword : String) : Option String :=
  if confirmPassword = "" then some "Please confirm your password"
  else if password ≠ confirmPassword then some "Passwords do not match"
  else none

/-- Translation of `RegisterPage.validate`: true exactly when no field
produced an error message (`Object.keys(newErrors).length === 0`). -/
def registerValidate (f : RegisterForm) : Bool :=
  (fullNameMsg f.fullName).isNone && (emailMsg f.email).isNone &&
    (passwordMsg f.password).isNone &&
    (confirmMsg f.password f.confirmPassword).isNone

/-- Translation of the guard in `handleSubmit`: `register` is invoked
exactly when `validate()` returned true (`if (!validate()) return;`). -/
def handleSubmitCallsRegister (f : RegisterForm) : Bool :=
  registerValidate f


/-! ## Status badges (src/frontend/src/pages/CasesPage.tsx and the Badge
component) -/

/-- Translation of the `variants` lookup in `CasesPage.getStatusBadge`:
the four case statuses the page styles specially; anything else falls
back to the gray badge (`variants[status] || 'gray'`). -/
def statusBadgeVariant (status : String) : Option String :=
  if status = "completed" then some "success"
  else if status = "processing" then some "warning"
  else if status = "pending" then some "gray"
  else if status = "failed" then some "danger"
  else none

/-- Badge variant actually rendered for a case status. -/
def getStatusBadge (status : String) : String :=
  (statusBadgeVariant status).getD "gray"

/-! ## Document lifecycle (spec section 4.7; the orchestrator itself is
not in the checked-in sources) -/

/-- Modelled from the spec: the document lifecycle statuses of the
missing pipeline orchestrator. -/
inductive DocStatus
  | uploaded
  | extracting
  | extracted
  | resolving
  | graph_updating
  | complete
  | failed
deriving DecidableEq, Repr

/-- Modelled from the spec: successor along the lifecycle chain
`uploaded to extracting to extracted to resolving to graph_updating to
complete`. -/
def chainNext : DocStatus → Option DocStatus
  | .uploaded => some .extracting
  | .extracting => some .extracted
  | .extracted => some .resolving
  | .resolving => some .graph_updating
  | .graph_updating => some .complete
  | .complete => none
  | .failed => none

/-- Modelled from the spec: allowed lifecycle transitions of the missing
orchestrator — one step along the chain, or to `failed` from any
non-terminal status. -/
inductive LifecycleStep : DocStatus → DocStatus → Prop
  | advance (s s2 : DocStatus) : chainNext s = some s2 → LifecycleStep s s2
  | toFailed (s : DocStatus) : s ≠ .complete → s ≠ .failed → LifecycleStep s .failed

/-- The status vocabulary claimed for the document lifecycle. -/
def lifecycleNames : List String :=
  ["uploaded", "extracting", "extracted", "resolving", "graph_updating",
   "complete", "failed"]

/-! ## Graph Builder (spec section 4.4; missing from the checked-in
sources) -/

/-- Modelled from the spec: per-owner graph-builder store.  `nodes` maps
an owner to its node set; `edgeDocs` maps an owner and an unordered edge
key to the set of document ids that have contributed to that edge, so
the edge weight is the cardinality of that set (invariant I5
bookkeeping). -/
@[ext]
structure GraphBuilderState where
  nodes : String → Finset String
  edgeDocs : String → String × String → Finset String

/-- Canonical unordered key for the pair of entity ids. -/
def edgeKey (a b : String) : String × String :=
  if a ≤ b then (a, b) else (b, a)

/-- All unordered pairs of distinct entities of one document, self-pairs
skipped. -/
def docPairs : List String → List (String × String)
  | [] => []
  | e :: rest => (rest.filter (fun x => x ≠ e)).map (edgeKey e) ++ docPairs rest

/-- Modelled from the spec: record one document against one edge — a
document already counted toward the edge is skipped, otherwise its id is
added to the contributing set (weight grows by one). -/
def bumpEdge (owner docId : String) (p : String × String)
    (st : GraphBuilderState) : GraphBuilderState :=
  if docId ∈ st.edgeDocs owner p then st
  else
    { st with
      edgeDocs := fun o q =>
        if o = owner ∧ q = p then insert docId (st.edgeDocs o q)
        else st.edgeDocs o q }

/-- Modelled from the spec: `applyDocument(owner, documentId,
resolvedEntities)` — creates missing nodes, then bumps every unordered
co-occurrence pair of the document. -/
def applyDocument (owner docId : String) (resolvedEntities : List String)
    (st : GraphBuilderState) : GraphBuilderState :=
  let st1 : GraphBuilderState :=
    { st with
      nodes := fun o =>
        if o = owner then st.nodes o ∪ resolvedEntities.toFinset
        else st.nodes o }
  (docPairs resolvedEntities).foldl (fun s p => bumpEdge owner docId p s) st1

/-- Edge weight read off the builder store. -/
def edgeWeight (st : GraphBuilderState) (owner : String)
    (p : String × String) : Nat :=
  (st.edgeDocs owner p).card

/-! ## Alias table and entity resolution (spec sections 3 and 4.3;
missing from the checked-in sources) -/

/-- Modelled from the spec: an `Alias` row {owner, canonical_entity_id,
alias_text, similarity_score, merged_at}. -/
structure Alias where
  owner : String
  canonical_entity_id : String
  alias_text : String
  similarity_score : ℚ
  merged_at : Nat
deriving DecidableEq, Repr

/-- Modelled from the spec: attaching an alias during resolution — a
no-op when the alias text is already aliased for this owner, otherwise
an append. -/
def attachAlias (st : List Alias) (owner cid text : String) (score : ℚ)
    (t : Nat) : List Alias :=
  if st.any (fun a => a.owner == owner && a.alias_text == text) then st
  else st ++ [⟨owner, cid, text, score, t⟩]

/-- Modelled from the spec: the alias reassignment performed by
`mergePrimary` — every alias of a duplicate entity of this owner is
repointed at the primary. -/
def reassignAliases (st : List Alias) (owner primary : String)
    (dups : List String) : List Alias :=
  st.map fun a =>
    if a.owner = owner ∧ a.canonical_entity_id ∈ dups then
      { a with canonical_entity_id := primary }
    else a

/-- Alias-table states reachable from an empty table through the two
operations that touch it. -/
inductive AliasReachable : List Alias → Prop
  | nil : AliasReachable []
  | attach {st : List Alias} (owner cid text : String) (score : ℚ) (t : Nat) :
      AliasReachable st → AliasReachable (attachAlias st owner cid text score t)
  | merge {st : List Alias} (owner primary : String) (dups : List String) :
      AliasReachable st → AliasReachable (reassignAliases st owner primary dups)

/-- Invariant I1: within one owner, an alias text determines the
canonical entity. -/
def AliasUnique (st : List Alias) : Prop :=
  ∀ a ∈ st, ∀ b ∈ st, a.owner = b.owner → a.alias_text = b.alias_text →
    a.canonical_entity_id = b.canonical_entity_id

/-! ## Merge transaction (spec section 4.3; missing from the checked-in
sources) -/

/-- Modelled from the spec: the owner-scoped graph state that
`mergePrimary` mutates — alias rows, per-owner node sets, and per-owner
edge weights. -/
structure MergeState where
  aliases : List Alias
  nodes : String → Finset String
  edgeW : String → String × String → Nat

/-- Modelled from the spec: merging a single duplicate into the primary
for one owner — aliases repointed, edges incident to the duplicate
redirected onto the primary with colliding weights re-summed, the
duplicate node deleted. -/
def mergeOne (owner primary d : String) (st : MergeState) : MergeState :=
  { aliases := reassignAliases st.aliases owner primary [d]
    nodes := fun o => if o = owner then (st.nodes o).erase d else st.nodes o
    edgeW := fun o q =>
      if o = owner then
        if q.1 = d ∨ q.2 = d then 0
        else if q.1 = primary then st.edgeW o q + st.edgeW o (edgeKey d q.2)
        else if q.2 = primary then st.edgeW o q + st.edgeW o (edgeKey d q.1)
        else st.edgeW o q
      else st.edgeW o q }

/-- Modelled from the spec: transactional `mergePrimary(primary_id,
duplicate_ids)` with fault injection.  The per-duplicate steps run
inside one transaction over a snapshot; a fault injected before the
last step aborts the transaction, which leaves the snapshot state; only
a fault-free run commits the folded result.  The Boolean reports
commit. -/
def mergePrimaryExec (owner primary : String) (dups : List String)
    (faultAt : Option Nat) (st : MergeState) : MergeState × Bool :=
  match faultAt with
  | some k =>
      if k < dups.length then (st, false)
      else (dups.foldl (fun s d => mergeOne owner primary d s) st, true)
  | none => (dups.foldl (fun s d => mergeOne owner primary d s) st, true)

/-! ## Fuzzy matcher (spec section 4.2; missing from the checked-in
sources) -/

/-- Modelled from the spec: an owner-scoped `CanonicalEntity` {id,
owner, canonical_name, normalized_name, type}. -/
structure CanonicalEntity where
  id : String
  owner : String
  canonical_name : String
  normalized_name : String
  entity_type : String
deriving DecidableEq, Repr

/-- Ranking used by both the matcher and the projector: higher score
first, ties broken by ascending name. -/
def rankBy {α β : Type} [LinearOrder β] (score : α → β) (name : α → String)
    (a b : α) : Prop :=
  score b < score a ∨ (score a = score b ∧ name a ≤ name b)

instance rankByDecidable {α β : Type} [LinearOrder β] (score : α → β)
    (name : α → String) : DecidableRel (rankBy score name) := fun a b => by
  unfold rankBy; infer_instance

instance rankByTotal {α β : Type} [LinearOrder β] (score : α → β)
    (name : α → String) : IsTotal α (rankBy score name) where
  total a b := by
    unfold rankBy
    rcases lt_trichotomy (score a) (score b) with h | h | h
    · exact Or.inr (Or.inl h)
    · rcases le_total (name a) (name b) with hn | hn
      · exact Or.inl (Or.inr ⟨h, hn⟩)
      · exact Or.inr (Or.inr ⟨h.symm, hn⟩)
    · exact Or.inl (Or.inl h)

instance rankByTrans {α β : Type} [LinearOrder β] (score : α → β)
    (name : α → String) : IsTrans α (rankBy score name) where
  trans a b c hab hbc := by
    unfold rankBy at *
    rcases hab with h1 | ⟨h1, h1n⟩ <;> rcases hbc with h2 | ⟨h2, h2n⟩
    · exact Or.inl (h2.trans h1)
    · exact Or.inl (h2 ▸ h1)
    · exact Or.inl (h1 ▸ h2)
    · exact Or.inr ⟨h1.trans h2, h1n.trans h2n⟩

/-- Modelled from the spec: token set of a normalized name (words,
order-independent, duplicates collapsed). -/
def tokensOf (s : String) : Finset (List Char) :=
  ((s.toList.splitOn ' ').filter (fun w => w ≠ [])).toFinset

/-- Modelled from the spec: token-set similarity on the 0 to 100 scale —
the overlap ratio of the two token sets, scaled to an integer
percentage. -/
def tokenSetScore (a b : String) : Nat :=
  let ta := tokensOf a
  let tb := tokensOf b
  if (ta ∪ tb).card = 0 then 0
  else 100 * (ta ∩ tb).card / (ta ∪ tb).card

/-- Modelled from the spec: `findCandidates(name, owner, pool,
threshold)` — scores the owner pool against the input, keeps scores at
or above the threshold (default 85), ranks descending with the
lexicographic tie-break, and returns at most 5. -/
def findCandidates (name : String) (owner : String)
    (pool : List CanonicalEntity) (threshold : Nat := 85) :
    List (CanonicalEntity × Nat) :=
  let scored := pool.map fun e => (e, tokenSetScore name e.normalized_name)
  let kept := scored.filter fun p => threshold ≤ p.2
  let ranked :=
    List.insertionSort (rankBy Prod.snd (fun p => p.1.canonical_name)) kept
  ranked.take 5

/-! ## Graph projector (spec section 4.6; missing from the checked-in
sources) -/

/-- Node view used by the projector. -/
structure ProjNode where
  id : String
  canonical_name : String
deriving DecidableEq, Repr

/-- Edge view used by the projector. -/
structure ProjEdge where
  source : String
  target : String
  weight : Nat
deriving DecidableEq, Repr

/-- Graph handed to the projector: one owner, nodes and weighted
edges. -/
structure ProjGraph where
  nodes : List ProjNode
  edges : List ProjEdge
deriving DecidableEq, Repr

/-- Degree of a node: number of incident edges. -/
def degreeOf (g : ProjGraph) (n : ProjNode) : Nat :=
  (g.edges.filter fun e => e.source = n.id || e.target = n.id).length

/-- Modelled from the spec (section 4.5): normalized degree centrality,
`degree / (|V| - 1)`, and 0 when `|V| <= 1`. -/
def degCentrality (g : ProjGraph) (n : ProjNode) : ℚ :=
  if g.nodes.length ≤ 1 then 0
  else (degreeOf g n : ℚ) / ((g.nodes.length : ℚ) - 1)

/-- Projection output shape `{nodes, edges, total_nodes, total_edges,
truncated}`. -/
structure Projection where
  nodes : List ProjNode
  edges : List ProjEdge
  total_nodes : Nat
  total_edges : Nat
  truncated : Bool
deriving DecidableEq, Repr

/-- Modelled from the spec: `project(owner, limit=500)` — ranks nodes by
degree centrality descending (ties by name ascending), keeps the top
`limit`, keeps only edges whose endpoints both survive, and flags
truncation. -/
def project (g : ProjGraph) (limit : Nat := 500) : Projection :=
  let ranked :=
    List.insertionSort (rankBy (degCentrality g) (fun n => n.canonical_name))
      g.nodes
  let kept := ranked.take limit
  let keptIds := kept.map fun n => n.id
  { nodes := kept
    edges := g.edges.filter fun e => e.source ∈ keptIds ∧ e.target ∈ keptIds
    total_nodes := g.nodes.length
    total_edges := g.edges.length
    truncated := decide (limit < g.nodes.length) }

/-! ## Pipeline retry (spec section 4.7; missing from the checked-in
sources) -/

/-- Modelled from the spec: the per-stage completion flags of one failed
document, in pipeline order (extract, resolve, graph_update,
metrics). -/
structure FailedDoc where
  stageDone : List Bool
deriving DecidableEq, Repr

/-- Modelled from the spec: `retryTask(taskId) -> newTaskId` — mints a
fresh task id from the orchestrator counter and re-enqueues the document
at its first incomplete stage. -/
def retryTask (nextId : Nat) (doc : FailedDoc) : Nat × Nat :=
  (nextId, doc.stageDone.findIdx fun b => !b)


/-- A 600-node graph exercising the truncation contract (P6). -/
def g600 : ProjGraph :=
  { nodes := (List.range 600).map fun i =>
      { id := toString i, canonical_name := toString i }
    edges := [] }

/-- A one-node graph with a self-loop edge, used to exhibit the edge
closure property of the projection on a concrete input. -/
def gLoop : ProjGraph :=
  { nodes := [{ id := "a", canonical_name := "a" }]
    edges := [{ source := "a", target := "a", weight := 1 }] }

/-- A one-entity candidate pool exercising the matcher on a concrete
input. -/
def poolKumar : List CanonicalEntity :=
  [{ id := "e1", owner := "u", canonical_name := "Justice Kumar",
     normalized_name := "justice kumar", entity_type := "PERSON" }]

/-! ## Theorems -/

/-- C8: `validateFile` returns a non-null message exactly when the
filename does not end in `.pdf` case-insensitively or the size exceeds
`50 * 1024 * 1024` bytes, and in every state reachable through the
modal handlers the retained upload candidate (the only file
`handleUpload` can send) passes validation. -/
theorem C8_upload_file_validation :
    (∀ f : UploadFile, (validateFile f).isSome = true ↔
      (nameEndsWithPdf f.name = false ∨ 50 * 1024 * 1024 < f.size)) ∧
    (∀ st : ModalState, ModalReachable st →
      ∀ f : UploadFile, handleUploadSends st = some f → validateFile f = none) := by
  constructor
  · intro f
    cases h1 : nameEndsWithPdf f.name with
    | false => simp [validateFile, h1]
    | true =>
        by_cases h2 : f.size > MAX_FILE_SIZE
        · simp only [validateFile, MAX_FILE_SIZE] at *
          simp [h1, h2]
        · simp only [validateFile, MAX_FILE_SIZE] at *
          simp [h1, h2]
  · intro st h
    induction h with
    | init => intro f hf; simp [handleUploadSends, initialModalState] at hf
    | select g _ ih =>
        intro f hf
        unfold handleUploadSends handleFileSelect at hf
        cases hv : validateFile g with
        | some e => rw [hv] at hf; simp at hf
        | none => rw [hv] at hf; simp at hf; rw [← hf]; exact hv
    | remove _ ih => intro f hf; simp [handleUploadSends, removeFile] at hf
    | close _ ih => intro f hf; simp [handleUploadSends, handleClose] at hf

/-- C8 witness: a concrete reachable state retaining a valid file. -/
theorem C8_upload_file_validation_witness :
    validateFile { name := "a.pdf", size := 1 } = none :=
  C8_upload_file_validation.2
    (handleFileSelect initialModalState { name := "a.pdf", size := 1 })
    (ModalReachable.select _ ModalReachable.init)
    { name := "a.pdf", size := 1 } (by decide)

/-- C9: `parseSentimentData` is total; it returns null exactly for null
or empty input, returns the parsed object when the text parses as JSON,
and otherwise wraps the text in `raw_analysis` with `parse_error`
set. -/
theorem C9_parse_sentiment_total (jsonParse : String → Option SentimentData)
    (resultText : Option String) :
    (parseSentimentData jsonParse resultText = none ↔
      (resultText = none ∨ resultText = some "")) ∧
    (∀ t v, resultText = some t → t ≠ "" → jsonParse t = some v →
      parseSentimentData jsonParse resultText = some v) ∧
    (∀ t, resultText = some t → t ≠ "" → jsonParse t = none →
      parseSentimentData jsonParse resultText =
        some { raw_analysis := some t, parse_error := some true }) := by
  refine ⟨?_, ?_, ?_⟩
  · cases resultText with
    | none => simp [parseSentimentData]
    | some t =>
        by_cases ht : t = ""
        · simp [parseSentimentData, ht]
        · simp only [parseSentimentData, if_neg ht]
          cases hp : jsonParse t <;> simp [ht]
  · intro t v hrt ht hp
    subst hrt
    simp [parseSentimentData, ht, hp]
  · intro t hrt ht hp
    subst hrt
    simp [parseSentimentData, ht, hp]

/-- C9 witness: a concrete non-JSON text is wrapped with a parse-error
marker. -/
theorem C9_parse_sentiment_total_witness :
    parseSentimentData (fun _ => none) (some "abc") =
      some { raw_analysis := some "abc", parse_error := some true } :=
  (C9_parse_sentiment_total (fun _ => none) (some "abc")).2.2 "abc" rfl
    (by decide) rfl

/-- C10: `RegisterPage.validate` returns true exactly when the full name
is non-blank after trimming, the email matches the email regex, the
password has length at least 8 with a lowercase letter, an uppercase
letter, a digit and a non-alphanumeric character, and the confirmation
is non-empty and equal to the password; and `handleSubmit` calls
`register` exactly when `validate` returns true. -/
theorem C10_register_validation (f : RegisterForm) :
    (registerValidate f = true ↔
      (jsTrimIsEmpty f.fullName = false ∧
       matchEmailRe f.email = true ∧
       8 ≤ f.password.length ∧
       hasLowerAscii f.password = true ∧
       hasUpperAscii f.password = true ∧
       hasDigitAscii f.password = true ∧
       hasNonAlnumAscii f.password = true ∧
       f.confirmPassword ≠ "" ∧
       f.confirmPassword = f.password)) ∧
    handleSubmitCallsRegister f = registerValidate f := by
  refine ⟨?_, rfl⟩
  have hfull : (fullNameMsg f.fullName).isNone = true ↔
      jsTrimIsEmpty f.fullName = false := by
    unfold fullNameMsg
    by_cases h : jsTrimIsEmpty f.fullName <;> simp [h]
  have hmail : (emailMsg f.email).isNone = true ↔ matchEmailRe f.email = true := by
    unfold emailMsg
    by_cases h0 : f.email = ""
    · rw [h0]; simp [show matchEmailRe "" = false from rfl]
    · by_cases h1 : matchEmailRe f.email <;> simp [h0, h1]
  have hpw : (passwordMsg f.password).isNone = true ↔
      (8 ≤ f.password.length ∧ hasLowerAscii f.password = true ∧
       hasUpperAscii f.password = true ∧ hasDigitAscii f.password = true ∧
       hasNonAlnumAscii f.password = true) := by
    unfold passwordMsg
    by_cases h0 : f.password = ""
    · have : f.password.length = 0 := by rw [h0]; rfl
      simp [h0, this]
    · by_cases h1 : f.password.length < 8
      · simp [h0, h1]
      · by_cases h2 : hasLowerAscii f.password
        · by_cases h3 : hasUpperAscii f.password
          · by_cases h4 : hasDigitAscii f.password
            · by_cases h5 : hasNonAlnumAscii f.password <;>
                simp [h0, h1, h2, h3, h4, h5] <;> omega
            · simp [h0, h1, h2, h3, h4]
          · simp [h0, h1, h2, h3]
        · simp [h0, h1, h2]
  have hcf : (confirmMsg f.password f.confirmPassword).isNone = true ↔
      (f.confirmPassword ≠ "" ∧ f.confirmPassword = f.password) := by
    unfold confirmMsg
    by_cases h0 : f.confirmPassword = ""
    · simp [h0]
    · by_cases h1 : f.password = f.confirmPassword
      · simp [h0, h1]
      · simp [h0, h1]
        intro h
        exact h1 h.symm
  unfold registerValidate
  simp only [Bool.and_eq_true]
  rw [hfull, hmail, hpw, hcf] at *
  tauto

theorem bumpEdge_nodes (owner docId : String) (p : String × String)
    (st : GraphBuilderState) :
    (bumpEdge owner docId p st).nodes = st.nodes := by
  unfold bumpEdge
  split <;> rfl

theorem foldl_bump_nodes (owner docId : String) (L : List (String × String))
    (st : GraphBuilderState) :
    (L.foldl (fun s p => bumpEdge owner docId p s) st).nodes = st.nodes := by
  induction L generalizing st with
  | nil => rfl
  | cons p L ih => simp only [List.foldl_cons, ih, bumpEdge_nodes]

theorem bumpEdge_mem_mono (owner docId : String) (p : String × String)
    (st : GraphBuilderState) (o : String) (q : String × String)
    (h : docId ∈ st.edgeDocs o q) :
    docId ∈ (bumpEdge owner docId p st).edgeDocs o q := by
  unfold bumpEdge
  split
  · exact h
  · simp only
    split
    · exact Finset.mem_insert_of_mem h
    · exact h

theorem bumpEdge_mem_self (owner docId : String) (p : String × String)
    (st : GraphBuilderState) :
    docId ∈ (bumpEdge owner docId p st).edgeDocs owner p := by
  unfold bumpEdge
  split
  · assumption
  · simp

theorem foldl_bump_mem_mono (owner docId : String)
    (L : List (String × String)) (st : GraphBuilderState) (o : String)
    (q : String × String) (h : docId ∈ st.edgeDocs o q) :
    docId ∈ (L.foldl (fun s p => bumpEdge owner docId p s) st).edgeDocs o q := by
  induction L generalizing st with
  | nil => exact h
  | cons p L ih =>
      simp only [List.foldl_cons]
      exact ih _ (bumpEdge_mem_mono owner docId p st o q h)

theorem foldl_bump_mem_all (owner docId : String)
    (L : List (String × String)) (st : GraphBuilderState) :
    ∀ p ∈ L,
      docId ∈ (L.foldl (fun s q => bumpEdge owner docId q s) st).edgeDocs owner p := by
  induction L generalizing st with
  | nil => intro p hp; cases hp
  | cons q L ih =>
      intro p hp
      simp only [List.foldl_cons]
      rcases List.mem_cons.mp hp with h | h
      · subst h
        exact foldl_bump_mem_mono owner docId L _ owner p
          (bumpEdge_mem_self owner docId p st)
      · exact ih _ p h

theorem bumpEdge_noop (owner docId : String) (p : String × String)
    (st : GraphBuilderState) (h : docId ∈ st.edgeDocs owner p) :
    bumpEdge owner docId p st = st := by
  unfold bumpEdge
  exact if_pos h

theorem foldl_bump_noop (owner docId : String) (L : List (String × String))
    (st : GraphBuilderState)
    (h : ∀ p ∈ L, docId ∈ st.edgeDocs owner p) :
    L.foldl (fun s p => bumpEdge owner docId p s) st = st := by
  induction L with
  | nil => rfl
  | cons p L ih =>
      simp only [List.foldl_cons]
      rw [bumpEdge_noop owner docId p st (h p (List.mem_cons_self p L))]
      exact ih fun q hq => h q (List.mem_cons_of_mem p hq)

/-- C2: `applyDocument` is idempotent per document — re-applying the
same document and entity set leaves the node sets and every edge weight
unchanged, because documents already counted toward an edge are
skipped. -/
theorem C2_apply_document_idempotent (owner docId : String)
    (es : List String) (st : GraphBuilderState) :
    applyDocument owner docId es (applyDocument owner docId es st) =
      applyDocument owner docId es st ∧
    (∀ o p,
      edgeWeight (applyDocument owner docId es (applyDocument owner docId es st)) o p =
        edgeWeight (applyDocument owner docId es st) o p) := by
  have main :
      applyDocument owner docId es (applyDocument owner docId es st) =
        applyDocument owner docId es st := by
    unfold applyDocument
    set L := docPairs es with hL
    set st1 : GraphBuilderState :=
      { st with
        nodes := fun o =>
          if o = owner then st.nodes o ∪ es.toFinset else st.nodes o } with hst1
    set A := L.foldl (fun s p => bumpEdge owner docId p s) st1 with hA
    have hnodes : A.nodes = st1.nodes := foldl_bump_nodes owner docId L st1
    have hA1 :
        ({ A with
            nodes := fun o =>
              if o = owner then A.nodes o ∪ es.toFinset else A.nodes o } :
          GraphBuilderState) = A := by
      ext o x
      · rw [hnodes]
        simp only [hst1]
        by_cases h : o = owner
        · simp [h, Finset.union_assoc]
        · simp [h]
      · rfl
    rw [hA1]
    exact foldl_bump_noop owner docId L A
      (foldl_bump_mem_all owner docId L st1)
  exact ⟨main, fun o p => by rw [main]⟩

/-- C3: every alias-table state reachable through attach and merge keeps
invariant I1 (one alias text per owner maps to one canonical entity),
and a duplicate attach is a no-op. -/
theorem C3_alias_uniqueness (st : List Alias) (h : AliasReachable st) :
    AliasUnique st ∧
    (∀ owner cid text score t,
      (st.any fun a => a.owner == owner && a.alias_text == text) = true →
      attachAlias st owner cid text score t = st) := by
  refine ⟨?_, ?_⟩
  · induction h with
    | nil => intro a ha; cases ha
    | @attach st owner cid text score t _ ih =>
        unfold attachAlias
        by_cases hdup :
            (st.any fun a => a.owner == owner && a.alias_text == text) = true
        · rw [if_pos hdup]; exact ih
        · rw [if_neg hdup]
          intro a ha b hb how hat
          rcases List.mem_append.mp ha with ha1 | ha1 <;>
            rcases List.mem_append.mp hb with hb1 | hb1
          · exact ih a ha1 b hb1 how hat
          · have hb2 : b = ⟨owner, cid, text, score, t⟩ :=
              List.mem_singleton.mp hb1
            subst hb2
            exact absurd
              (List.any_eq_true.mpr ⟨a, ha1, by simp [how, hat]⟩) hdup
          · have ha2 : a = ⟨owner, cid, text, score, t⟩ :=
              List.mem_singleton.mp ha1
            subst ha2
            exact absurd
              (List.any_eq_true.mpr ⟨b, hb1, by simp [how.symm, hat.symm]⟩) hdup
          · have ha2 : a = ⟨owner, cid, text, score, t⟩ :=
              List.mem_singleton.mp ha1
            have hb2 : b = ⟨owner, cid, text, score, t⟩ :=
              List.mem_singleton.mp hb1
            rw [ha2, hb2]
    | @merge st owner primary dups _ ih =>
        intro a ha b hb how hat
        unfold reassignAliases at ha hb
        rcases List.mem_map.mp ha with ⟨a0, ha0, rfl⟩
        rcases List.mem_map.mp hb with ⟨b0, hb0, rfl⟩
        by_cases ca : a0.owner = owner ∧ a0.canonical_entity_id ∈ dups <;>
          by_cases cb : b0.owner = owner ∧ b0.canonical_entity_id ∈ dups
        · rw [if_pos ca, if_pos cb]
        · rw [if_pos ca, if_neg cb] at how hat ⊢
          simp only at how hat ⊢
          have hcid := ih a0 ha0 b0 hb0 how hat
          exact absurd ⟨how ▸ ca.1, hcid ▸ ca.2⟩ cb
        · rw [if_neg ca, if_pos cb] at how hat ⊢
          simp only at how hat ⊢
          have hcid := ih a0 ha0 b0 hb0 how hat
          exact absurd ⟨how.symm ▸ cb.1, hcid.symm ▸ cb.2⟩ ca
        · rw [if_neg ca, if_neg cb] at how hat ⊢
          exact ih a0 ha0 b0 hb0 how hat
  · intro owner cid text score t hdup
    unfold attachAlias
    exact if_pos hdup

/-- C3 witness: a concrete reachable table after two attaches and a
merge. -/
theorem C3_alias_uniqueness_witness :
    AliasUnique
      (reassignAliases
        (attachAlias (attachAlias [] "u" "e1" "kumar" 90 0) "u" "e2" "kumar" 88 1)
        "u" "e1" ["e2"]) :=
  (C3_alias_uniqueness _
    (AliasReachable.merge "u" "e1" ["e2"]
      (AliasReachable.attach "u" "e2" "kumar" 88 1
        (AliasReachable.attach "u" "e1" "kumar" 90 0 AliasReachable.nil)))).1

theorem mergeOne_nodes_subset (owner primary d : String) (st : MergeState)
    (o : String) : (mergeOne owner primary d st).nodes o ⊆ st.nodes o := by
  unfold mergeOne
  simp only
  split
  · exact Finset.erase_subset d (st.nodes o)
  · exact Finset.Subset.refl _

theorem foldl_mergeOne_nodes_subset (owner primary : String)
    (ds : List String) (st : MergeState) (o : String) :
    (ds.foldl (fun s x => mergeOne owner primary x s) st).nodes o ⊆ st.nodes o := by
  induction ds generalizing st with
  | nil => exact Finset.Subset.refl _
  | cons x ds ih =>
      simp only [List.foldl_cons]
      exact (ih (mergeOne owner primary x st)).trans
        (mergeOne_nodes_subset owner primary x st o)

theorem foldl_mergeOne_nodes_gone (owner primary : String)
    (ds : List String) (st : MergeState) :
    ∀ d ∈ ds, d ∉ (ds.foldl (fun s x => mergeOne owner primary x s) st).nodes owner := by
  induction ds generalizing st with
  | nil => intro d hd; cases hd
  | cons x ds ih =>
      intro d hd
      simp only [List.foldl_cons]
      rcases List.mem_cons.mp hd with h | h
      · subst h
        intro hmem
        have hsub := foldl_mergeOne_nodes_subset owner primary ds
          (mergeOne owner primary d st) owner hmem
        unfold mergeOne at hsub
        simp only [if_pos rfl] at hsub
        exact Finset.not_mem_erase d (st.nodes owner) hsub
      · exact ih (mergeOne owner primary x st) d h

theorem mergeOne_alias_clears (owner primary d : String) (st : MergeState)
    (hpd : primary ≠ d) :
    ∀ a ∈ (mergeOne owner primary d st).aliases,
      a.owner = owner → a.canonical_entity_id ≠ d := by
  intro a ha how
  unfold mergeOne reassignAliases at ha
  simp only at ha
  rcases List.mem_map.mp ha with ⟨a0, _, rfl⟩
  by_cases c : a0.owner = owner ∧ a0.canonical_entity_id ∈ [d]
  · rw [if_pos c]
    exact hpd
  · rw [if_neg c] at how ⊢
    intro hcd
    exact c ⟨how, hcd ▸ List.mem_singleton_self d⟩

theorem mergeOne_alias_keeps (owner primary d x : String) (st : MergeState)
    (hpd : primary ≠ d)
    (h : ∀ a ∈ st.aliases, a.owner = owner → a.canonical_entity_id ≠ d) :
    ∀ a ∈ (mergeOne owner primary x st).aliases,
      a.owner = owner → a.canonical_entity_id ≠ d := by
  intro a ha how
  unfold mergeOne reassignAliases at ha
  simp only at ha
  rcases List.mem_map.mp ha with ⟨a0, ha0, rfl⟩
  by_cases c : a0.owner = owner ∧ a0.canonical_entity_id ∈ [x]
  · rw [if_pos c]
    exact hpd
  · rw [if_neg c] at how ⊢
    exact h a0 ha0 how

theorem foldl_mergeOne_alias_keeps (owner primary d : String)
    (ds : List String) (st : MergeState) (hpd : primary ≠ d)
    (h : ∀ a ∈ st.aliases, a.owner = owner → a.canonical_entity_id ≠ d) :
    ∀ a ∈ (ds.foldl (fun s x => mergeOne owner primary x s) st).aliases,
      a.owner = owner → a.canonical_entity_id ≠ d := by
  induction ds generalizing st with
  | nil => exact h
  | cons x ds ih =>
      simp only [List.foldl_cons]
      exact ih (mergeOne owner primary x st)
        (mergeOne_alias_keeps owner primary d x st hpd h)

theorem foldl_mergeOne_alias_gone (owner primary : String)
    (ds : List String) (st : MergeState) (hp : primary ∉ ds) :
    ∀ d ∈ ds, ∀ a ∈ (ds.foldl (fun s x => mergeOne owner primary x s) st).aliases,
      a.owner = owner → a.canonical_entity_id ≠ d := by
  induction ds generalizing st with
  | nil => intro d hd; cases hd
  | cons x ds ih =>
      intro d hd
      have hpx : primary ≠ x := fun hx => hp (hx ▸ List.mem_cons_self x ds)
      have hpds : primary ∉ ds := fun hx => hp (List.mem_cons_of_mem x hx)
      simp only [List.foldl_cons]
      rcases List.mem_cons.mp hd with h | h
      · subst h
        exact foldl_mergeOne_alias_keeps owner primary d ds
          (mergeOne owner primary d st) hpx
          (mergeOne_alias_clears owner primary d st hpx)
      · exact ih (mergeOne owner primary x st) hpds d h

/-- C4: `mergePrimary` is atomic — a fault injected before the last
per-duplicate step leaves the pre-merge state exactly, and a committed
run merges the full set of duplicates: every duplicate node is deleted
and no alias of the owner still points at a duplicate. -/
theorem C4_merge_atomicity (owner primary : String) (dups : List String)
    (st : MergeState) :
    (∀ k, k < dups.length →
      mergePrimaryExec owner primary dups (some k) st = (st, false)) ∧
    (primary ∉ dups →
      ∀ fault, (mergePrimaryExec owner primary dups fault st).2 = true →
        (∀ d ∈ dups,
          d ∉ (mergePrimaryExec owner primary dups fault st).1.nodes owner) ∧
        (∀ d ∈ dups,
          ∀ a ∈ (mergePrimaryExec owner primary dups fault st).1.aliases,
            a.owner = owner → a.canonical_entity_id ≠ d)) := by
  constructor
  · intro k hk
    simp [mergePrimaryExec, hk]
  · intro hp fault hcommit
    have hres : (mergePrimaryExec owner primary dups fault st).1 =
        dups.foldl (fun s d => mergeOne owner primary d s) st := by
      cases fault with
      | none => rfl
      | some k =>
          by_cases hk : k < dups.length
          · simp [mergePrimaryExec, hk] at hcommit
          · simp [mergePrimaryExec, hk]
    rw [hres]
    exact ⟨foldl_mergeOne_nodes_gone owner primary dups st,
      foldl_mergeOne_alias_gone owner primary dups st hp⟩

/-- C4 witness: a fault at the first step of a one-duplicate merge
leaves the concrete pre-merge state unchanged. -/
theorem C4_merge_atomicity_witness :
    mergePrimaryExec "u" "p" ["d"] (some 0)
        { aliases := [], nodes := fun _ => ∅, edgeW := fun _ _ => 0 } =
      ({ aliases := [], nodes := fun _ => ∅, edgeW := fun _ _ => 0 }, false) :=
  (C4_merge_atomicity "u" "p" ["d"]
    { aliases := [], nodes := fun _ => ∅, edgeW := fun _ _ => 0 }).1 0
    (by decide)

theorem findIdx_earlier_fails {α : Type} (p : α → Bool) :
    ∀ (l : List α) (i : Nat) (a : α), i < l.findIdx p → l.get? i = some a →
      p a = false := by
  intro l
  induction l with
  | nil => intro i a _ hget; cases hget
  | cons x l ih =>
      intro i a hi hget
      rw [List.findIdx_cons] at hi
      cases hpx : p x with
      | true => rw [hpx] at hi; simp at hi
      | false =>
          rw [hpx] at hi
          simp only [cond_false] at hi
          cases i with
          | zero =>
              simp only [List.get?_cons_zero, Option.some.injEq] at hget
              rw [← hget]; exact hpx
          | succ j =>
              simp only [List.get?_cons_succ] at hget
              exact ih j a (Nat.lt_of_succ_lt_succ hi) hget

theorem findIdx_hits {α : Type} (p : α → Bool) :
    ∀ (l : List α), l.any p = true →
      ∃ a, l.get? (l.findIdx p) = some a ∧ p a = true := by
  intro l
  induction l with
  | nil => intro h; cases h
  | cons x l ih =>
      intro h
      rw [List.findIdx_cons]
      cases hpx : p x with
      | true => exact ⟨x, by simp, hpx⟩
      | false =>
          simp only [cond_false]
          have h2 : l.any p = true := by
            simp only [List.any_cons, hpx, Bool.false_or] at h
            exact h
          rcases ih h2 with ⟨a, hget, hpa⟩
          exact ⟨a, by simpa using hget, hpa⟩

/-- C6: `retryTask` mints the fresh task id and re-enqueues at the first
incomplete stage — every stage before the re-entry point already
succeeded (so no completed stage is re-run), and when an incomplete
stage exists the re-entry stage is indeed incomplete. -/
theorem C6_retry_resumes (nextId : Nat) (doc : FailedDoc) :
    (retryTask nextId doc).1 = nextId ∧
    (∀ i b, i < (retryTask nextId doc).2 → doc.stageDone.get? i = some b →
      b = true) ∧
    ((doc.stageDone.any fun b => !b) = true →
      doc.stageDone.get? (retryTask nextId doc).2 = some false) := by
  refine ⟨rfl, ?_, ?_⟩
  · intro i b hi hget
    have := findIdx_earlier_fails (fun b => !b) doc.stageDone i b hi hget
    simpa using this
  · intro h
    rcases findIdx_hits (fun b => !b) doc.stageDone h with ⟨a, hget, hpa⟩
    have ha : a = false := by simpa using hpa
    rw [ha] at hget
    exact hget

/-- C6 witness: a document whose first two stages succeeded resumes at
stage index 2 with the fresh id. -/
theorem C6_retry_resumes_witness :
    (retryTask 7 { stageDone := [true, true, false, false] }).1 = 7 ∧
    (retryTask 7 { stageDone := [true, true, false, false] }).2 = 2 ∧
    [true, true, false, false].get? 2 = some false :=
  ⟨(C6_retry_resumes 7 { stageDone := [true, true, false, false] }).1,
   by decide,
   (C6_retry_resumes 7 { stageDone := [true, true, false, false] }).2.2
     (by decide)⟩

/-- C7: `findCandidates` returns at most 5 candidates, ranked descending
by score with equal scores ordered by ascending canonical name, and
every returned score is at or above the threshold. -/
theorem C7_find_candidates (name owner : String)
    (pool : List CanonicalEntity) (threshold : Nat) :
    (findCandidates name owner pool threshold).length ≤ 5 ∧
    List.Pairwise
      (fun a b : CanonicalEntity × Nat =>
        b.2 ≤ a.2 ∧ (a.2 = b.2 → a.1.canonical_name ≤ b.1.canonical_name))
      (findCandidates name owner pool threshold) ∧
    (∀ c ∈ findCandidates name owner pool threshold, threshold ≤ c.2) := by
  refine ⟨?_, ?_, ?_⟩
  · unfold findCandidates
    exact List.length_take_le 5 _
  · have hsorted :
        List.Sorted (rankBy Prod.snd fun p : CanonicalEntity × Nat => p.1.canonical_name)
          (findCandidates name owner pool threshold) := by
      unfold findCandidates
      exact List.Pairwise.sublist (List.take_sublist 5 _)
        (List.sorted_insertionSort _ _)
    refine hsorted.imp ?_
    intro a b hr
    rcases hr with h | ⟨h, hn⟩
    · exact ⟨le_of_lt h, fun he => absurd (he ▸ h) (lt_irrefl _)⟩
    · exact ⟨le_of_eq h.symm, fun _ => hn⟩
  · intro c hc
    unfold findCandidates at hc
    have h1 := List.mem_of_mem_take hc
    have h2 := (List.mem_insertionSort _).mp h1
    have h3 := List.of_mem_filter h2
    exact of_decide_eq_true h3

theorem project_nodes_length (g : ProjGraph) (limit : Nat) :
    (project g limit).nodes.length = min limit g.nodes.length := by
  unfold project
  simp only [List.length_take, List.length_insertionSort]

/-- C1: the projection returns the `{nodes, edges, total_nodes,
total_edges, truncated}` view where the nodes are the top `limit` of the
centrality-ranked node list (descending, names breaking ties), every
returned edge has both endpoints among the returned nodes, `truncated`
holds exactly when `total_nodes` exceeds `limit`, and the node count is
`min limit total_nodes`; in particular a 600-node graph projected with
limit 500 is truncated to exactly 500 nodes. -/
theorem C1_projection (g : ProjGraph) (limit : Nat) :
    ((project g limit).nodes =
      (List.insertionSort (rankBy (degCentrality g) fun n => n.canonical_name)
        g.nodes).take limit) ∧
    List.Sorted (rankBy (degCentrality g) fun n => n.canonical_name)
      (project g limit).nodes ∧
    (List.insertionSort (rankBy (degCentrality g) fun n => n.canonical_name)
      g.nodes).Perm g.nodes ∧
    (∀ e ∈ (project g limit).edges,
      e.source ∈ (project g limit).nodes.map (fun n => n.id) ∧
      e.target ∈ (project g limit).nodes.map (fun n => n.id)) ∧
    (project g limit).total_nodes = g.nodes.length ∧
    (project g limit).total_edges = g.edges.length ∧
    (project g limit).truncated = decide (limit < (project g limit).total_nodes) ∧
    (project g limit).nodes.length = min limit g.nodes.length ∧
    (project g600 500).truncated = true ∧
    (project g600 500).nodes.length = 500 := by
  refine ⟨rfl, ?_, List.perm_insertionSort _ _, ?_, rfl, rfl, rfl, ?_, ?_, ?_⟩
  · unfold project
    exact List.Pairwise.sublist (List.take_sublist limit _)
      (List.sorted_insertionSort _ _)
  · intro e he
    unfold project at he ⊢
    have h := List.of_mem_filter he
    have h2 := of_decide_eq_true h
    exact h2
  · exact project_nodes_length g limit
  · have hlen : g600.nodes.length = 600 := by
      unfold g600
      simp
    unfold project
    simp only [hlen]
    rfl
  · rw [project_nodes_length g600 500]
    have hlen : g600.nodes.length = 600 := by
      unfold g600
      simp
    rw [hlen]
    decide

/-- C5 counterexample: the presentation layer does not observe the
lifecycle status vocabulary — the badge map of `CasesPage` gives the
lifecycle status `extracting` no distinct rendering, while it renders
`processing`, which is not a lifecycle status at all. -/
theorem C5_lifecycle_counterexample :
    statusBadgeVariant "extracting" = none ∧
    "extracting" ∈ lifecycleNames ∧
    statusBadgeVariant "processing" = some "warning" ∧
    "processing" ∉ lifecycleNames := by
  refine ⟨?_, ?_, ?_, ?_⟩ <;> decide

/-- C5 amended: the lifecycle statuses and transitions follow the spec
chain with `failed` reachable from every non-terminal status, while the
presentation layer observes the coarse statuses `completed`,
`processing`, `pending` and `failed`, rendering every other status
string with the gray default badge. -/
theorem C5_lifecycle_and_badges :
    (∀ s s2 : DocStatus, LifecycleStep s s2 →
      chainNext s = some s2 ∨ s2 = DocStatus.failed) ∧
    (∀ s : DocStatus, s ≠ DocStatus.complete → s ≠ DocStatus.failed →
      LifecycleStep s DocStatus.failed) ∧
    (∀ status : String, (statusBadgeVariant status).isSome = true ↔
      status ∈ ["completed", "processing", "pending", "failed"]) ∧
    (∀ status : String,
      getStatusBadge status = (statusBadgeVariant status).getD "gray") := by
  refine ⟨?_, ?_, ?_, fun _ => rfl⟩
  · intro s s2 h
    cases h
    case advance hc => exact Or.inl hc
    case toFailed h1 h2 => exact Or.inr rfl
  · intro s h1 h2
    exact LifecycleStep.toFailed s h1 h2
  · intro status
    unfold statusBadgeVariant
    by_cases h1 : status = "completed"
    · simp [h1]
    · by_cases h2 : status = "processing"
      · simp [h2]
      · by_cases h3 : status = "pending"
        · simp [h3]
        · by_cases h4 : status = "failed"
          · simp [h4]
          · simp [h1, h2, h3, h4]

/-- C5 witness: the failure transition is available from the initial
lifecycle status. -/
theorem C5_lifecycle_and_badges_witness :
    LifecycleStep DocStatus.uploaded DocStatus.failed :=
  C5_lifecycle_and_badges.2.1 DocStatus.uploaded (by decide) (by decide)

/-- C1 witness: on a concrete graph the surviving edge has both
endpoints among the returned node ids. -/
theorem C1_projection_witness :
    ({ source := "a", target := "a", weight := 1 } : ProjEdge).source ∈
      ((project gLoop 500).nodes.map fun n => n.id) ∧
    ({ source := "a", target := "a", weight := 1 } : ProjEdge).target ∈
      ((project gLoop 500).nodes.map fun n => n.id) :=
  (C1_projection gLoop 500).2.2.2.1
    { source := "a", target := "a", weight := 1 } (by decide)

/-- C7 witness: a concrete exact-match candidate scores 100 and meets the
85 threshold. -/
theorem C7_find_candidates_witness :
    (85 : Nat) ≤
      (({ id := "e1", owner := "u", canonical_name := "Justice Kumar",
          normalized_name := "justice kumar", entity_type := "PERSON" } :
        CanonicalEntity), (100 : Nat)).2 :=
  (C7_find_candidates "justice kumar" "u" poolKumar 85).2.2
    ({ id := "e1", owner := "u", canonical_name := "Justice Kumar",
       normalized_name := "justice kumar", entity_type := "PERSON" }, 100)
    (by decide)
